import Mathlib

/-!
Verification of the `lizenz` license-header tool (`src/main.rs`) against its
natural-language specification.  The embedding below translates the string
manipulation of the Rust source into Lean: Rust `String`/`str` values are Lean
`String`s, and the handful of `str` methods the program uses
(`lines`, `trim`, `trim_start_matches`, `trim_end_matches`) are re-implemented
here over the underlying character list with the exact semantics of the Rust
standard library (restricted to ASCII whitespace for `trim`, which is the only
whitespace that occurs in the program's data).
-/

namespace Lizenz

/-- Fuel-driven repeated stripping of the list `p` from the front of `s`;
Rust `str::trim_start_matches` removes every leading occurrence of the
pattern, and removes nothing when the pattern is empty.  `s.length` steps of
fuel always suffice because each successful strip removes at least one
character. -/
def trimStartMatchesChAux (p : List Char) : Nat → List Char → List Char
  | 0, s => s
  | n + 1, s =>
    if p.isPrefixOf s && !p.isEmpty then trimStartMatchesChAux p n (s.drop p.length) else s

/-- Rust `str::trim_start_matches` on character lists. -/
def trimStartMatchesCh (p s : List Char) : List Char :=
  trimStartMatchesChAux p s.length s

/-- Rust `str::trim_end_matches` on character lists: strip every trailing
occurrence of `p`, implemented by stripping reversed prefixes. -/
def trimEndMatchesCh (p s : List Char) : List Char :=
  (trimStartMatchesCh p.reverse s.reverse).reverse

/-- Rust `str::trim` on character lists: drop whitespace from both ends. -/
def trimCh (s : List Char) : List Char :=
  ((s.dropWhile Char.isWhitespace).reverse.dropWhile Char.isWhitespace).reverse

/-- Split a character list on newline characters.  Always returns a non-empty
list of parts (the parts between the newlines). -/
def splitOnNlCh : List Char → List (List Char)
  | [] => [[]]
  | c :: rest =>
    if c = '\n' then [] :: splitOnNlCh rest
    else
      match splitOnNlCh rest with
      | [] => [[c]]
      | l :: ls => (c :: l) :: ls

/-- Remove a single trailing carriage return, as Rust `str::lines` does for a
line that was terminated by `\r\n`. -/
def stripCrCh (l : List Char) : List Char :=
  if l.getLast? = some '\r' then l.dropLast else l

/-- Rust `str::lines` on character lists: split at `\n`, strip one trailing
`\r` from every part that was followed by a `\n`, and drop a final empty part
(the optional line terminator of the last line). -/
def rustLinesCh (s : List Char) : List (List Char) :=
  let parts := splitOnNlCh s
  let body := parts.dropLast.map stripCrCh
  match parts.getLast? with
  | some [] => body
  | some lastPart => body ++ [lastPart]
  | none => body

/-- Rust `str::lines` lifted to `String`. -/
def rustLines (s : String) : List String :=
  (rustLinesCh s.data).map String.mk

/-- Rust `str::trim_start_matches` lifted to `String`. -/
def trimStartMatches (p s : String) : String :=
  String.mk (trimStartMatchesCh p.data s.data)

/-- Rust `str::trim_end_matches` lifted to `String`. -/
def trimEndMatches (p s : String) : String :=
  String.mk (trimEndMatchesCh p.data s.data)

/-- Rust `str::trim` lifted to `String`. -/
def rustTrim (s : String) : String :=
  String.mk (trimCh s.data)

/-- Concatenation of a list of strings, Rust `Iterator::collect::<String>`. -/
def strJoin (ls : List String) : String :=
  ls.foldl (fun a b => a ++ b) ""

/-- Rust `[&str]::join(sep)`. -/
def joinWith (sep : String) : List String → String
  | [] => ""
  | [x] => x
  | x :: y :: rest => x ++ sep ++ joinWith sep (y :: rest)

/-- `CommentKind` from `src/main.rs`: `Single(String)` or
`Multi { start, end, between }` (the `end` field is called `stop` here because
`end` is reserved in Lean). -/
inductive CommentKind
  | Single (pfx : String)
  | Multi (start : String) (stop : String) (between : Option String)
deriving DecidableEq

/-- `CommentConfig` from `src/main.rs`. -/
structure CommentConfig where
  tree_sitter_name : String
  comment_kind : CommentKind
  preferred : Bool
deriving DecidableEq

/-- `LanguageConfig` from `src/main.rs`. -/
structure LanguageConfig where
  file_endings : List String
  comments : List CommentConfig
deriving DecidableEq

/-- The failure cases of the core functions.  The Rust source reports all of
them through anonymous `miette` diagnostics; the spec names them
`UnresolvedLanguage` (no glob matched), `MissingGrammar` (language resolved
but no grammar module loaded), `ParseFailure` (parser returned no tree) and
`NoCommentSyntax` (fix requested for a language with zero comment rules,
modelled by the constructor `NoCommentRules`). -/
inductive LizenzError
  | UnresolvedLanguage (file : String)
  | MissingGrammar (lang : String)
  | ParseFailure
  | NoCommentRules
deriving DecidableEq

/-- Comment-rule selection for the fix path (`src/main.rs` lines 191-201):
the first rule with `preferred` set, or else the first configured rule. -/
def selectRule (comments : List CommentConfig) : Option CommentConfig :=
  (comments.find? (fun conf => conf.preferred)).orElse (fun _ => comments.head?)

/-- The fix path fails when no comment rule exists (`bail!` at line 197),
which the spec calls the `NoCommentSyntax` error. -/
def fixSelect (comments : List CommentConfig) : Except LizenzError CommentConfig :=
  match selectRule comments with
  | some conf => .ok conf
  | none => .error .NoCommentRules

/-- The glob test of `load_language`: does any of the language's
`file_endings` globs match the file name?  The glob matcher itself is the
external `glob_match` crate, so it is passed in as a parameter `gm`. -/
def langMatches (gm : String → String → Bool) (lc : LanguageConfig) (fileName : String) : Bool :=
  lc.file_endings.any (fun g => gm g fileName)

/-- Lookup in the grammar registry (`langs.get(name)` on the `HashMap`); the
registry is modelled as an association list in iteration order, with the
loaded grammar handle abstracted to a `Nat`. -/
def lookupLang (langs : List (String × Nat)) (name : String) : Option Nat :=
  (langs.find? (fun p => p.1 == name)).map (fun p => p.2)

/-- `load_language` from `src/main.rs` (lines 344-368): find the first
configured language (in map iteration order, modelled as list order) with a
glob matching the file name, then look its grammar up in the registry.
Returns the language configuration and the grammar handle in place of the
constructed parser. -/
def load_language (langs : List (String × Nat)) (languages : List (String × LanguageConfig))
    (gm : String → String → Bool) (fileName : String) :
    Except LizenzError (LanguageConfig × Nat) :=
  match languages.find? (fun p => langMatches gm p.2 fileName) with
  | none => .error (.UnresolvedLanguage fileName)
  | some (name, lc) =>
    match lookupLang langs name with
    | none => .error (.MissingGrammar name)
    | some h => .ok (lc, h)

/-- One top-level named node of the parsed syntax tree, as the comment
extractor sees it: its grammar node-type name and its source text. -/
structure TSNode where
  grammar_name : String
  text : String
deriving DecidableEq

/-- The text a single matched comment node contributes to the accumulating
comment body (`verify_file`, lines 303-326).  Single-line: strip the prefix
(every leading occurrence, Rust `trim_start_matches`), trim, plus a newline.
Multi-line: strip the start token from the front and the end token from the
back, then clean every resulting line of the `between` token and surrounding
whitespace, joined with newlines and no trailing newline. -/
def commentPiece (kind : CommentKind) (text : String) : String :=
  match kind with
  | .Single pfx => rustTrim (trimStartMatches pfx text) ++ "\n"
  | .Multi start stop between =>
    joinWith "\n" ((rustLines (trimEndMatches stop (trimStartMatches start text))).map
      (fun line => rustTrim (trimStartMatches (between.getD "") line)))

/-- The comment-accumulation loop of `verify_file` (lines 295-328) over the
root's named children: every node whose grammar name equals a configured
rule's `tree_sitter_name` contributes its cleaned text, in document order. -/
def extractComments (rules : List CommentConfig) (nodes : List TSNode) : String :=
  nodes.foldl
    (fun comments child =>
      match rules.find? (fun n => n.tree_sitter_name == child.grammar_name) with
      | some conf => comments ++ commentPiece conf.comment_kind child.text
      | none => comments)
    ""

/-- The license comparison of `verify_file` (lines 330-341): truncate the
accumulated body to the license's line count, then compare both sides
trimmed. -/
def matchesLicense (licenseText : String) (comments : String) : Bool :=
  let truncated := joinWith "\n" ((rustLines comments).take (rustLines licenseText).length)
  decide (rustTrim truncated = rustTrim licenseText)

/-- A file as `verify_file` consumes it: its name and the outcome of the
external tree-sitter parse of its contents — `none` when the parser returns
no tree, otherwise the root's top-level named nodes. -/
structure FileModel where
  name : String
  parsed : Option (List TSNode)

/-- `verify_file` from `src/main.rs` (lines 283-342): resolve the language,
parse, extract the comment body, and compare it to the license text. -/
def verify_file (langs : List (String × Nat)) (languages : List (String × LanguageConfig))
    (licenseText : String) (gm : String → String → Bool) (file : FileModel) :
    Except LizenzError Bool :=
  match load_language langs languages gm file.name with
  | .error e => .error e
  | .ok (lc, _) =>
    match file.parsed with
    | none => .error .ParseFailure
    | some nodes => .ok (matchesLicense licenseText (extractComments lc.comments nodes))

/-- The `Command::Verify` loop of `main` (lines 177-182): each file is
verified, the boolean result is discarded, and any error aborts the run. -/
def runVerify (langs : List (String × Nat)) (languages : List (String × LanguageConfig))
    (licenseText : String) (gm : String → String → Bool) : List FileModel → Except LizenzError Unit
  | [] => .ok ()
  | f :: rest =>
    match verify_file langs languages licenseText gm f with
    | .error e => .error e
    | .ok _ => runVerify langs languages licenseText gm rest

/-- The header synthesis of the fix path (`src/main.rs` lines 203-253).
Single-line: one `prefix line\n` (or bare `prefix\n` for an empty line) per
license line, collected into one string.  Multi-line: for zero or one license
lines, `start ++ " " ++ rawText ++ " " ++ stop` with the raw license text
embedded; for two or more, the first line after the start token, then each
interior line formatted `between line` and appended via `String::extend`
(plain concatenation), then ` lastLine stop` appended. -/
def fixHeader (kind : CommentKind) (licenseText : String) : String :=
  match kind with
  | CommentKind.Single pfx =>
    strJoin ((rustLines licenseText).map (fun line =>
      if line = "" then pfx ++ "\n" else pfx ++ " " ++ line ++ "\n"))
  | CommentKind.Multi start stop between =>
    match rustLines licenseText with
    | [] => start ++ " " ++ licenseText ++ " " ++ stop
    | [_] => start ++ " " ++ licenseText ++ " " ++ stop
    | firstLine :: more :: rest =>
      start ++ " " ++ firstLine
        ++ strJoin (((more :: rest).dropLast).map (fun line =>
             (between.getD "") ++ " " ++ line))
        ++ " " ++ ((more :: rest).getLastD "") ++ " " ++ stop

/-- Round trip of synthesis followed by extraction, the spec's §8 property.
The tree-sitter parse of the synthesized header is modelled the way the
grammars of the built-in configuration behave: every line of a single-line
header is its own comment node, and a multi-line header is one comment node
containing the whole block. -/
def roundTrip (conf : CommentConfig) (licenseText : String) : Bool :=
  let header := fixHeader conf.comment_kind licenseText
  let nodes : List TSNode :=
    match conf.comment_kind with
    | .Single _ => (rustLines header).map (fun l => ⟨conf.tree_sitter_name, l⟩)
    | .Multi _ _ _ => [⟨conf.tree_sitter_name, header⟩]
  matchesLicense licenseText (extractComments [conf] nodes)

/-- One entry of the grammar-directory scan in `load_languages`
(`src/main.rs` lines 374-412): either the directory iterator itself yielded
an error, or an entry with its path, its file type (`none` when
`entry.file_type()` failed, otherwise whether it is a directory), its file
stem, and the outcome of `load_ts_lib` (dynamic load plus symbol
resolution), whose success is an abstract grammar handle. -/
inductive EntryResult
  | readError
  | entry (path : String) (fileType : Option Bool) (stem : Option String)
      (load : Except String Nat)

/-- The scan loop of `load_languages`: unreadable entries, entries with an
undeterminable file type, directories and entries without a stem are skipped
(`continue` after a logged diagnostic); a `load_ts_lib` failure aborts the
whole scan wrapped in a context naming the path. -/
def load_languages_go (langs : List (String × Nat)) :
    List EntryResult → Except String (List (String × Nat))
  | [] => .ok langs
  | EntryResult.readError :: rest => load_languages_go langs rest
  | EntryResult.entry path fileType stem load :: rest =>
    match fileType with
    | none => load_languages_go langs rest
    | some true => load_languages_go langs rest
    | some false =>
      match stem with
      | none => load_languages_go langs rest
      | some lang_name =>
        match load with
        | .error e => .error ("While trying to load " ++ path ++ ": " ++ e)
        | .ok handle => load_languages_go (langs ++ [(lang_name, handle)]) rest

/-- `load_languages` from `src/main.rs`, with the grammar registry modelled
as an association list in insertion order. -/
def load_languages (entries : List EntryResult) : Except String (List (String × Nat)) :=
  load_languages_go [] entries

/-- The default rust block-comment rule of `default_languages`. -/
def blockRule : CommentConfig :=
  ⟨"block_comment", CommentKind.Multi "/*" "*/" (some "*"), false⟩

/-- The default rust line-comment rule of `default_languages`. -/
def lineRule : CommentConfig :=
  ⟨"line_comment", CommentKind.Single "//", true⟩

/-- The comment rules of the built-in `rust` language of
`default_languages`. -/
def rustComments : List CommentConfig :=
  [blockRule, lineRule]

/-- A concrete glob matcher used for witnesses: exact file-name match. -/
def gmEq : String → String → Bool := fun g f => g == f

/-- A language configuration for witnesses, using the built-in rust comment
rules with a literal file-name pattern. -/
def rustLang : LanguageConfig :=
  ⟨["main.rs"], rustComments⟩

/-- A one-entry grammar registry for witnesses. -/
def demoLangs : List (String × Nat) :=
  [("rust", 5)]

/-- A one-language configuration map for witnesses. -/
def demoLanguages : List (String × LanguageConfig) :=
  [("rust", rustLang)]

/-- The top-level nodes of a file whose only comment does not match the
license, for witnesses. -/
def demoNodes : List TSNode :=
  [⟨"line_comment", "// nope"⟩]

/-- A parsed, non-conforming file for witnesses. -/
def demoFile : FileModel :=
  ⟨"main.rs", some demoNodes⟩

/-- `find?` returns the first element satisfying the predicate: if nothing in
`pre` satisfies `p` and `c` does, the search over `pre ++ c :: post` yields
`c`. -/
theorem find?_first {α : Type} (p : α → Bool) (pre : List α) (c : α) (post : List α)
    (hpre : ∀ x ∈ pre, p x = false) (hc : p c = true) :
    (pre ++ c :: post).find? p = some c := by
  induction pre with
  | nil => simpa using List.find?_cons_of_pos post hc
  | cons x xs ih =>
    have hx : p x = false := hpre x (by simp)
    rw [List.cons_append, List.find?_cons_of_neg _ (by simp [hx])]
    exact ih (fun y hy => hpre y (by simp [hy]))

/-- After `trimStartMatchesChAux` with enough fuel, a non-empty pattern is no
longer a prefix of the result: the stripping loop runs until the pattern
fails to match. -/
theorem not_isPrefixOf_trimAux (p : List Char) (hp : p ≠ []) :
    ∀ n s, List.length s ≤ n → p.isPrefixOf (trimStartMatchesChAux p n s) = false := by
  intro n
  induction n with
  | zero =>
    intro s hs
    have hs0 : s = [] := List.length_eq_zero.mp (Nat.le_zero.mp hs)
    subst hs0
    cases p with
    | nil => exact absurd rfl hp
    | cons a as => rfl
  | succ n ih =>
    intro s hs
    have hne : (!p.isEmpty) = true := by
      cases p with
      | nil => exact absurd rfl hp
      | cons a as => rfl
    show p.isPrefixOf
      (if p.isPrefixOf s && !p.isEmpty then trimStartMatchesChAux p n (s.drop p.length) else s)
        = false
    split
    · next hcond =>
      apply ih
      have hpre : p.isPrefixOf s = true := by
        simp only [Bool.and_eq_true] at hcond
        exact hcond.1
      have hple : p.length ≤ s.length := (List.isPrefixOf_iff_prefix.mp hpre).length_le
      have hppos : 0 < p.length := List.length_pos.mpr hp
      rw [List.length_drop]
      omega
    · next hcond =>
      cases h1 : p.isPrefixOf s with
      | false => rfl
      | true =>
        exfalso
        apply hcond
        rw [h1, hne]
        rfl

/-- A string different from `""` has a non-empty character list. -/
theorem ne_empty_data (s : String) (h : s ≠ "") : s.data ≠ [] := by
  intro hd
  apply h
  show String.mk s.data = ""
  rw [hd]

/-- C1: contrary to the claim, the multi-line header synthesized for the
three-line license text `"a\nb\nc"` with rule `/* ... */` and between token
`*` is the single physical line `"/* a* b c */"` — the interior and final
segments are concatenated without any newline, so the header has one line,
not three. -/
theorem multi_header_no_newlines_eval :
    fixHeader (CommentKind.Multi "/*" "*/" (some "*")) "a\nb\nc" = "/* a* b c */" ∧
    (rustLines (fixHeader (CommentKind.Multi "/*" "*/" (some "*")) "a\nb\nc")).length = 1 := by
  constructor <;> decide

/-- C2: contrary to the claim, synthesizing a header for the two-line license
text `"a\nb"` with the multi-line block rule and then extracting it back via
the same rule does not reproduce the license text: the round trip yields
`false` because the synthesized header collapses to one line. -/
theorem round_trip_multi_two_lines_eval :
    rustLines "a\nb" = ["a", "b"] ∧ roundTrip blockRule "a\nb" = false := by
  constructor <;> decide

/-- C3 counterexample: a scan whose first directory entry is unreadable still
completes successfully and loads the remaining entry, so a per-entry failure
does not abort the registry build, and the build can complete partially. -/
theorem load_languages_skips_unreadable_eval :
    load_languages [EntryResult.readError,
      EntryResult.entry "rust.so" (some false) (some "rust") (Except.ok 7)]
      = Except.ok [("rust", 7)] := rfl

/-- C3 (amended): unreadable entries, entries with an undeterminable file
type, directories, and entries without a derivable name are skipped and the
scan continues, while a dynamic-load failure aborts the whole scan with an
error naming the offending path. -/
theorem load_languages_skip_and_abort :
    (∀ langs rest, load_languages_go langs (EntryResult.readError :: rest)
        = load_languages_go langs rest) ∧
    (∀ langs path stem load rest,
        load_languages_go langs (EntryResult.entry path none stem load :: rest)
          = load_languages_go langs rest) ∧
    (∀ langs path stem load rest,
        load_languages_go langs (EntryResult.entry path (some true) stem load :: rest)
          = load_languages_go langs rest) ∧
    (∀ langs path load rest,
        load_languages_go langs (EntryResult.entry path (some false) none load :: rest)
          = load_languages_go langs rest) ∧
    (∀ langs path nm e rest,
        load_languages_go langs
            (EntryResult.entry path (some false) (some nm) (Except.error e) :: rest)
          = Except.error ("While trying to load " ++ path ++ ": " ++ e)) :=
  ⟨fun _ _ => rfl, fun _ _ _ _ _ => rfl, fun _ _ _ _ _ => rfl,
   fun _ _ _ _ => rfl, fun _ _ _ _ _ => rfl⟩

/-- C4 counterexample: for the node text `"//// x"` under the single-line
rule with prefix `"//"`, extraction yields `"x\n"`, not the `"// x\n"` that
stripping the prefix exactly once would produce — both occurrences of the
prefix are removed. -/
theorem single_extract_strips_twice_eval :
    extractComments [lineRule] [⟨"line_comment", "//// x"⟩] = "x\n" ∧
    ("x\n" : String) ≠ "// x\n" := by
  constructor <;> decide

/-- C4 (amended): single-line extraction strips every leading occurrence of
the non-empty prefix from the node's text (Rust `trim_start_matches`
semantics) — the prefix is no longer a prefix of the stripped result — then
trims surrounding whitespace and appends the result plus one newline to the
comment body. -/
theorem single_extract_strips_all (pfx nm text : String) (pref : Bool) (hp : pfx ≠ "") :
    pfx.data.isPrefixOf (trimStartMatches pfx text).data = false ∧
    extractComments [⟨nm, CommentKind.Single pfx, pref⟩] [⟨nm, text⟩]
      = rustTrim (trimStartMatches pfx text) ++ "\n" := by
  constructor
  · exact not_isPrefixOf_trimAux pfx.data (ne_empty_data pfx hp)
      text.data.length text.data (Nat.le_refl _)
  · have hf : List.find? (fun n => n.tree_sitter_name == (TSNode.mk nm text).grammar_name)
        [CommentConfig.mk nm (CommentKind.Single pfx) pref]
        = some (CommentConfig.mk nm (CommentKind.Single pfx) pref) :=
      List.find?_cons_of_pos _ (by simp)
    simp [extractComments, hf, commentPiece]

/-- C4 witness: the amended statement at prefix `"//"` and node text
`"//// x"`. -/
theorem single_extract_strips_all_w :
    ("//" : String).data.isPrefixOf (trimStartMatches "//" "//// x").data = false ∧
    extractComments [⟨"line_comment", CommentKind.Single "//", true⟩]
        [⟨"line_comment", "//// x"⟩]
      = rustTrim (trimStartMatches "//" "//// x") ++ "\n" :=
  single_extract_strips_all "//" "line_comment" "//// x" true (by decide)

/-- C5: when the language resolves and the file parses, verification returns
`Ok(true)` exactly when the extracted comment body, truncated to the
license's line count, equals the license text after both are trimmed, and
`Ok(false)` exactly when the trimmed strings differ — a boolean outcome with
no other comparison. -/
theorem verify_true_iff_trimmed_equal (langs : List (String × Nat))
    (languages : List (String × LanguageConfig)) (licenseText : String)
    (gm : String → String → Bool) (file : FileModel) (lc : LanguageConfig) (h : Nat)
    (nodes : List TSNode)
    (hload : load_language langs languages gm file.name = Except.ok (lc, h))
    (hparse : file.parsed = some nodes) :
    (verify_file langs languages licenseText gm file = Except.ok true ↔
      rustTrim (joinWith "\n" ((rustLines (extractComments lc.comments nodes)).take
        (rustLines licenseText).length)) = rustTrim licenseText) ∧
    (verify_file langs languages licenseText gm file = Except.ok false ↔
      ¬ rustTrim (joinWith "\n" ((rustLines (extractComments lc.comments nodes)).take
        (rustLines licenseText).length)) = rustTrim licenseText) := by
  constructor <;> simp [verify_file, hload, hparse, matchesLicense]

/-- C5 witness: the equivalence at a concrete non-conforming file. -/
theorem verify_true_iff_trimmed_equal_w :
    (verify_file demoLangs demoLanguages "LIC" gmEq demoFile = Except.ok true ↔
      rustTrim (joinWith "\n" ((rustLines (extractComments rustLang.comments demoNodes)).take
        (rustLines "LIC").length)) = rustTrim "LIC") ∧
    (verify_file demoLangs demoLanguages "LIC" gmEq demoFile = Except.ok false ↔
      ¬ rustTrim (joinWith "\n" ((rustLines (extractComments rustLang.comments demoNodes)).take
        (rustLines "LIC").length)) = rustTrim "LIC") :=
  verify_true_iff_trimmed_equal demoLangs demoLanguages "LIC" gmEq demoFile rustLang 5
    demoNodes rfl rfl

/-- C6: the single-line header is the concatenation, over the license's lines
in order, of `prefix ++ " " ++ line ++ "\n"` for a non-empty line and
`prefix ++ "\n"` for an empty line; concretely, the two-line license of the
spec's scenario yields `"// Copyright 2025\n// All rights reserved\n"`. -/
theorem single_header_concat :
    (∀ pfx text : String, fixHeader (CommentKind.Single pfx) text
        = strJoin ((rustLines text).map (fun line =>
            if line = "" then pfx ++ "\n" else pfx ++ " " ++ line ++ "\n"))) ∧
    fixHeader (CommentKind.Single "//") "Copyright 2025\nAll rights reserved"
      = "// Copyright 2025\n// All rights reserved\n" :=
  ⟨fun _ _ => rfl, by decide⟩

/-- C7 counterexample: the license text `"hello\n"` has exactly one line, yet
its multi-line header is `"/* hello\n */"`, which contains a newline and
spans two physical lines — not the single line the claim asserts. -/
theorem multi_header_one_line_newline_eval :
    (rustLines "hello\n").length = 1 ∧
    fixHeader (CommentKind.Multi "/*" "*/" none) "hello\n" = "/* hello\n */" ∧
    (rustLines (fixHeader (CommentKind.Multi "/*" "*/" none) "hello\n")).length = 2 := by
  refine ⟨by decide, by decide, by decide⟩

/-- C7 (amended): for a license text of zero or one lines, the multi-line
header is `start ++ " " ++ text ++ " " ++ end` with the raw license text
embedded verbatim (so it is a single physical line only when the raw text
contains no newline; an empty text yields `start ++ " " ++ " " ++ end`). -/
theorem multi_header_small_formula (start stop : String) (between : Option String)
    (text : String) (h : (rustLines text).length ≤ 1) :
    fixHeader (CommentKind.Multi start stop between) text
      = start ++ " " ++ text ++ " " ++ stop := by
  rcases hl : rustLines text with _ | ⟨a, _ | ⟨b, l⟩⟩
  · simp [fixHeader, hl]
  · simp [fixHeader, hl]
  · rw [hl] at h
    simp at h

/-- C7 witness: the empty license text yields the bare delimiter pair. -/
theorem multi_header_small_formula_w :
    fixHeader (CommentKind.Multi "/*" "*/" none) "" = "/*" ++ " " ++ "" ++ " " ++ "*/" :=
  multi_header_small_formula "/*" "*/" none "" (by decide)

/-- C8: fix-time rule selection returns the first rule marked preferred when
one exists (everything before it unmarked), otherwise the first configured
rule, and fails with the no-comment-rules error on an empty rule list. -/
theorem fix_rule_selection :
    (fixSelect [] = Except.error LizenzError.NoCommentRules) ∧
    (∀ pre c post, (∀ x ∈ pre, x.preferred = false) → c.preferred = true →
        fixSelect (pre ++ c :: post) = Except.ok c) ∧
    (∀ c rest, (∀ x ∈ c :: rest, x.preferred = false) →
        fixSelect (c :: rest) = Except.ok c) := by
  refine ⟨rfl, ?_, ?_⟩
  · intro pre c post hpre hc
    have hf : (pre ++ c :: post).find? (fun conf => conf.preferred) = some c :=
      find?_first _ pre c post hpre hc
    simp [fixSelect, selectRule, hf, Option.orElse]
  · intro c rest hall
    have hf : (c :: rest).find? (fun conf => conf.preferred) = none :=
      List.find?_eq_none.mpr (fun x hx => by simp [hall x hx])
    simp [fixSelect, selectRule, hf, Option.orElse]

/-- C8 witness: on the built-in rust rules, selection skips the unpreferred
block rule and picks the preferred line rule. -/
theorem fix_rule_selection_w :
    fixSelect rustComments = Except.ok lineRule :=
  fix_rule_selection.2.1 [blockRule] lineRule [] (by decide) rfl

/-- C9: language resolution returns the first configured descriptor (in map
iteration order) with a glob matching the file name; when none matches it
fails with `UnresolvedLanguage`, when the matched language has no loaded
grammar it fails with `MissingGrammar`, and the two errors are distinct. -/
theorem load_language_resolution (gm : String → String → Bool) (langs : List (String × Nat))
    (languages : List (String × LanguageConfig)) (fileName : String) :
    ((∀ p ∈ languages, langMatches gm p.2 fileName = false) →
        load_language langs languages gm fileName
          = Except.error (LizenzError.UnresolvedLanguage fileName)) ∧
    (∀ pre nm lc post,
        languages = pre ++ (nm, lc) :: post →
        (∀ p ∈ pre, langMatches gm p.2 fileName = false) →
        langMatches gm lc fileName = true →
        ((lookupLang langs nm = none →
            load_language langs languages gm fileName
              = Except.error (LizenzError.MissingGrammar nm)) ∧
         (∀ h, lookupLang langs nm = some h →
            load_language langs languages gm fileName = Except.ok (lc, h)))) ∧
    (∀ f n, LizenzError.UnresolvedLanguage f ≠ LizenzError.MissingGrammar n) := by
  refine ⟨?_, ?_, ?_⟩
  · intro hnone
    have hf : languages.find? (fun p => langMatches gm p.2 fileName) = none :=
      List.find?_eq_none.mpr (fun x hx => by simp [hnone x hx])
    simp [load_language, hf]
  · intro pre nm lc post heq hpre hc
    have hf : languages.find? (fun p => langMatches gm p.2 fileName) = some (nm, lc) := by
      rw [heq]
      exact find?_first _ pre (nm, lc) post (fun x hx => hpre x hx) hc
    constructor
    · intro hlk
      simp [load_language, hf, hlk]
    · intro h hlk
      simp [load_language, hf, hlk]
  · intro f n hcontra
    exact LizenzError.noConfusion hcontra

/-- C9 witness: with one configured language whose glob matches and a loaded
grammar, resolution succeeds with that configuration and handle. -/
theorem load_language_resolution_w :
    load_language demoLangs demoLanguages gmEq "main.rs" = Except.ok (rustLang, 5) :=
  (((load_language_resolution gmEq demoLangs demoLanguages "main.rs").2.1
    [] "rust" rustLang [] rfl (by simp) rfl).2) 5 rfl

/-- C10: under the verify subcommand a non-conforming file is not an error:
when the language resolves, the file parses and the comparison fails,
`verify_file` returns `Ok(false)`; and whenever every file's verification
returns some boolean, the whole verify run completes with success, the
per-file booleans being discarded. -/
theorem verify_run_tolerates_nonconforming (langs : List (String × Nat))
    (languages : List (String × LanguageConfig)) (licenseText : String)
    (gm : String → String → Bool) :
    (∀ f lc h nodes,
        load_language langs languages gm f.name = Except.ok (lc, h) →
        f.parsed = some nodes →
        matchesLicense licenseText (extractComments lc.comments nodes) = false →
        verify_file langs languages licenseText gm f = Except.ok false) ∧
    (∀ files : List FileModel,
        (∀ f ∈ files, ∃ b, verify_file langs languages licenseText gm f = Except.ok b) →
        runVerify langs languages licenseText gm files = Except.ok ()) := by
  constructor
  · intro f lc h nodes hload hparse hmatch
    simp [verify_file, hload, hparse, hmatch]
  · intro files
    induction files with
    | nil => intro _; rfl
    | cons f rest ih =>
      intro hall
      obtain ⟨b, hb⟩ := hall f (by simp)
      have hrest := ih (fun g hg => hall g (by simp [hg]))
      simp [runVerify, hb, hrest]

/-- C10 witness: a concrete non-conforming file yields `Ok(false)` and a
verify run over it completes successfully. -/
theorem verify_run_tolerates_nonconforming_w :
    verify_file demoLangs demoLanguages "LIC" gmEq demoFile = Except.ok false ∧
    runVerify demoLangs demoLanguages "LIC" gmEq [demoFile] = Except.ok () := by
  have h1 := (verify_run_tolerates_nonconforming demoLangs demoLanguages "LIC" gmEq).1
    demoFile rustLang 5 demoNodes rfl rfl (by decide)
  refine ⟨h1, ?_⟩
  refine (verify_run_tolerates_nonconforming demoLangs demoLanguages "LIC" gmEq).2
    [demoFile] ?_
  intro f hf
  have hfe : f = demoFile := by simpa using hf
  rw [hfe]
  exact ⟨false, h1⟩

end Lizenz
